import Mathlib

/-!
Verification of the confidence-region geometry and dominance/covering engine
of the VectOptAL repository.

The development shallowly embeds the relevant Python functions:

* `src/vectoptal/utils/utils.py`: `hyperrectangle_check_intersection`,
  `hyperrectangle_get_vertices`, `get_smallmij`, `get_delta`, and the solver
  orchestration of `get_alpha` and the point-wise `is_covered`.
* `src/vectoptal/confidence_region.py`: `RectangularConfidenceRegion`
  (construction, `update`, `intersect`, `is_dominated`, `is_covered`),
  `EllipsoidalConfidenceRegion` (`check_dominates`, `is_covered`), and the
  three type-dispatch helper functions.

Numpy arrays are modelled as `List α` (for the geometric primitives, where
shapes vary per call) or as `Fin n → α` functions (for the gap statistics,
where the code indexes fixed shapes).  Machine floats are modelled as elements
of a linear ordered field; theorems about `update` instantiate the field at
`ℝ` with `Real.sqrt` for `np.sqrt`.  The external conic solver (cvxpy) is
modelled at its interface: a solve attempt either finishes with a status
string (or `None`) or raises a `SolverError`; the orchestration of attempts at each call
site and the decoding of the final status are embedded exactly as the code
performs them.
-/

/-! ## Geometric primitives (`src/vectoptal/utils/utils.py`) -/

/-- Embedding of `hyperrectangle_check_intersection` (utils.py 282-304).
The code returns `False` when `np.any(lower1 >= upper2) or np.any(upper1 <= lower2)`
and `True` otherwise; the numpy elementwise comparisons over equally shaped
arrays are modelled by predicates over the zipped lists. -/
def hyperrectangle_check_intersection {α : Type} [LinearOrder α]
    (lower1 upper1 lower2 upper2 : List α) : Bool :=
  if (lower1.zip upper2).any (fun p => decide (p.2 ≤ p.1))
      || (upper1.zip lower2).any (fun p => decide (p.1 ≤ p.2)) then
    false
  else
    true

/-- Embedding of `itertools.product` applied to the per-dimension pairs
`[lower_i, upper_i]` in `hyperrectangle_get_vertices` (utils.py 319-320):
the first dimension varies slowest, exactly as `itertools.product` iterates. -/
def vertexProduct {α : Type} : List (α × α) → List (List α)
  | [] => [[]]
  | p :: rest =>
      ((vertexProduct rest).map (fun v => p.1 :: v))
        ++ ((vertexProduct rest).map (fun v => p.2 :: v))

/-- Embedding of `hyperrectangle_get_vertices` (utils.py 307-321):
`a = [[l1, l2] for l1, l2 in zip(lower, upper)]` followed by
`itertools.product(*a)`. -/
def hyperrectangle_get_vertices {α : Type} (lower upper : List α) : List (List α) :=
  vertexProduct (lower.zip upper)

/-! ## Gap statistics (`src/vectoptal/utils/utils.py`) -/

/-- Embedding of `get_smallmij` (utils.py 175-195).  `vi`, `vj` are `(D,)`
arrays, `W` is `(n_constraint, D)` and — per the docstring and per
`get_alpha_vec` (utils.py 87-99), which produces it — `alpha_vec` is an
`(n_constraint, 1)` column.  The code computes `prod = W @ (vj - vi)`
(shape `(n,)`), clips negatives to zero in place, and returns
`(prod / alpha_vec).min()`.  Because `prod` has shape `(n,)` and `alpha_vec`
has shape `(n, 1)`, numpy broadcasting makes `prod / alpha_vec` the `(n, n)`
outer quotient matrix whose `(a, b)` entry is `prod[b] / alpha_vec[a]`, and
`.min()` is the minimum over all of its entries; the embedding reproduces
exactly this.  The constraint count is written `m + 1` because `.min()` of an
empty array raises in numpy. -/
def get_smallmij {α : Type} [LinearOrderedField α] {D m : ℕ}
    (vi vj : Fin D → α) (W : Fin (m + 1) → Fin D → α)
    (alpha_vec : Fin (m + 1) → α) : α :=
  let prod : Fin (m + 1) → α := fun k => ∑ i, W k i * (vj i - vi i)
  let clipped : Fin (m + 1) → α := fun k => if prod k < 0 then 0 else prod k
  Finset.univ.inf' Finset.univ_nonempty
    (fun p : Fin (m + 1) × Fin (m + 1) => clipped p.2 / alpha_vec p.1)

/-- The per-row formula that the specification states for `m(i,j)`:
`min_k max(0, (W(vj - vi))_k) / alpha_vec_k`.  This definition follows the
wording of the spec (and the expected-value computation of the test
`TestGetSmallmij` in the repository, which normalizes each row of `W` by its
own alpha); it is
kept separate from `get_smallmij` so the two can be compared. -/
def get_smallmij_rowwise {α : Type} [LinearOrderedField α] {D m : ℕ}
    (vi vj : Fin D → α) (W : Fin (m + 1) → Fin D → α)
    (alpha_vec : Fin (m + 1) → α) : α :=
  let prod : Fin (m + 1) → α := fun k => ∑ i, W k i * (vj i - vi i)
  let clipped : Fin (m + 1) → α := fun k => if prod k < 0 then 0 else prod k
  Finset.univ.inf' Finset.univ_nonempty (fun k => clipped k / alpha_vec k)

/-- Embedding of `get_delta` (utils.py 198-221).  `delta_values` starts at
zero and the double loop performs `delta_values[i] = max(delta_values[i], mij)`
for `j = 0, ..., N-1` in order; the final `reshape(-1, 1)` is dropped because
the result is modelled as a vector.  The point count is written `N + 1`
because the claims index into the result. -/
def get_delta {α : Type} [LinearOrderedField α] {N D m : ℕ}
    (mu : Fin (N + 1) → Fin D → α) (W : Fin (m + 1) → Fin D → α)
    (alpha_vec : Fin (m + 1) → α) : Fin (N + 1) → α :=
  fun i =>
    (List.finRange (N + 1)).foldl
      (fun acc j => max acc (get_smallmij (mu i) (mu j) W alpha_vec)) 0

/-! ## Solver interface model -/

/-- Status values that a finished cvxpy solve reports through `prob.status`;
`None` (modelled by `Option.none` at use sites) is kept separate because the
code tests `prob.status is None`. -/
inductive CvxStatus where
  | optimal
  | infeasible
  | unbounded
  | optimal_inaccurate
  | infeasible_inaccurate
  | unbounded_inaccurate
deriving DecidableEq

/-- The literal status strings used by cvxpy, which the code compares against
(`prob.status == "optimal"`, `"infeasible" in prob.status`). -/
def CvxStatus.statusStr : CvxStatus → String
  | .optimal => "optimal"
  | .infeasible => "infeasible"
  | .unbounded => "unbounded"
  | .optimal_inaccurate => "optimal_inaccurate"
  | .infeasible_inaccurate => "infeasible_inaccurate"
  | .unbounded_inaccurate => "unbounded_inaccurate"

/-- Whether `needle` is a prefix of `hay`, on character lists. -/
def charPrefix : List Char → List Char → Bool
  | [], _ => true
  | _ :: _, [] => false
  | a :: as, b :: bs => a == b && charPrefix as bs

/-- Whether `needle` occurs as a contiguous substring of `hay`; models the
Python `in` operator on strings. -/
def charContains (needle : List Char) : List Char → Bool
  | [] => needle.isEmpty
  | b :: bs => charPrefix needle (b :: bs) || charContains needle bs

/-- Python exceptions that the embedded code can surface. -/
inductive PyErr where
  | assertionError
  | typeError
  | notImplementedError
  | solverError
  | valueError
deriving DecidableEq

/-- Result of one `prob.solve(...)` attempt: either the solve finishes (and
`prob.status` afterwards holds the given value), or the call raises
`cvxpy.error.SolverError`. -/
inductive SolveAttempt (σ : Type) where
  | finished (s : σ)
  | raisesSolverError

/-- Solve orchestration used at call sites that guard `prob.solve()` with
`try ... except cp.error.SolverError: prob.solve(solver=cp.SCS)`
(confidence_region.py 234-237, 349-352, 429-432): the fallback attempt is
consulted only when the primary attempt raises, and a second raise
propagates. -/
def solveWithSCSRetry {σ : Type} (primary scs : SolveAttempt σ) : Except PyErr σ :=
  match primary with
  | .finished s => .ok s
  | .raisesSolverError =>
      match scs with
      | .finished s => .ok s
      | .raisesSolverError => .error .solverError

/-- Solve orchestration used at call sites that run a bare `prob.solve()`
with no exception handler: a raised `SolverError` propagates immediately and
the (hypothetical) SCS fallback attempt is never consulted. -/
def solveNoRetry {σ : Type} (primary scs : SolveAttempt σ) : Except PyErr σ :=
  match primary with
  | .finished s => .ok s
  | .raisesSolverError => .error .solverError

/-- Solve orchestration of `get_alpha` (utils.py 48-84): line 82 is a bare
`prob.solve()` with no `try`/`except`, so no SCS retry happens. -/
def get_alpha_solve {σ : Type} (primary scs : SolveAttempt σ) : Except PyErr σ :=
  solveNoRetry primary scs

/-- Solve orchestration of the point-wise `is_covered` (utils.py 260-279):
line 277 is a bare `prob.solve()` with no `try`/`except`, so no SCS retry
happens. -/
def utils_is_covered_solve {σ : Type} (primary scs : SolveAttempt σ) : Except PyErr σ :=
  solveNoRetry primary scs

/-- Solve orchestration of `RectangularConfidenceRegion.is_covered`
(confidence_region.py 234-237): `try: prob.solve() except SolverError:
prob.solve(solver=cp.SCS)`. -/
def rect_is_covered_solve {σ : Type} (primary scs : SolveAttempt σ) : Except PyErr σ :=
  solveWithSCSRetry primary scs

/-- Solve orchestration of each per-row solve in
`EllipsoidalConfidenceRegion.is_dominated` (confidence_region.py 349-352). -/
def ellips_is_dominated_solve {σ : Type} (primary scs : SolveAttempt σ) : Except PyErr σ :=
  solveWithSCSRetry primary scs

/-- Solve orchestration of `EllipsoidalConfidenceRegion.is_covered`
(confidence_region.py 429-432). -/
def ellips_is_covered_solve {σ : Type} (primary scs : SolveAttempt σ) : Except PyErr σ :=
  solveWithSCSRetry primary scs

/-! ## Confidence regions (`src/vectoptal/confidence_region.py`) -/

/-- State of a `RectangularConfidenceRegion` object. -/
structure RectangularConfidenceRegion (α : Type) where
  intersect_iteratively : Bool
  lower : List α
  upper : List α

/-- State of an `EllipsoidalConfidenceRegion` object. -/
structure EllipsoidalConfidenceRegion (α : Type) where
  center : List α
  sigma : List (List α)
  alpha : α

/-- The `slackness` argument as the code receives it: a numpy scalar
(`np.array(0.0)`) or a one-dimensional array. -/
inductive SlacknessSpec (α : Type) where
  | scalar (s : α)
  | vec (v : List α)

/-- Embedding of the assertion `np.array(slackness).size == 1 or
slackness.size == dims`: a scalar always passes, and a vector passes when its
length is `1` or `dims`. -/
def SlacknessSpec.sizeOk {α : Type} (dims : ℕ) : SlacknessSpec α → Bool
  | .scalar _ => true
  | .vec v => decide (v.length = 1) || decide (v.length = dims)

/-- Numpy broadcast addition `vert + slackness` of a `(D,)` vertex with the
slackness: a scalar (or a singleton array) is added to every component,
otherwise the addition is elementwise. -/
def addSlack {α : Type} [Add α] [Zero α] (v : List α) : SlacknessSpec α → List α
  | .scalar s => v.map (fun x => x + s)
  | .vec w => if w.length = 1 then v.map (fun x => x + w.headD 0) else List.zipWith (· + ·) v w

/-- Embedding of `RectangularConfidenceRegion.__init__` (confidence_region.py
43-64).  When both bounds are given, the constructor asserts that they have
length `dim` and are ordered (`np.all(lower <= upper)`); otherwise it installs
the infinite default bounds `±1e12`. -/
def RectangularConfidenceRegion.make {α : Type} [LinearOrderedField α] (dim : ℕ)
    (lower? upper? : Option (List α)) (intersect_iteratively : Bool) :
    Except PyErr (RectangularConfidenceRegion α) :=
  match lower?, upper? with
  | some lower, some upper =>
      if decide (lower.length = dim) && decide (upper.length = dim) then
        if (lower.zip upper).all (fun p => decide (p.1 ≤ p.2)) then
          .ok ⟨intersect_iteratively, lower, upper⟩
        else
          .error .assertionError
      else
        .error .assertionError
  | _, _ =>
      .ok ⟨intersect_iteratively,
        List.replicate dim (-((10 : α) ^ 12)),
        List.replicate dim ((10 : α) ^ 12)⟩

/-- Embedding of `RectangularConfidenceRegion.intersect` (confidence_region.py
113-130): if the incoming box overlaps the current one per
`hyperrectangle_check_intersection`, the bounds become the coordinatewise
`np.maximum` of lowers and `np.minimum` of uppers; otherwise the incoming box
replaces the region wholesale. -/
def RectangularConfidenceRegion.intersect {α : Type} [LinearOrder α]
    (r : RectangularConfidenceRegion α) (lower upper : List α) :
    RectangularConfidenceRegion α :=
  if hyperrectangle_check_intersection r.lower r.upper lower upper then
    { r with
        lower := List.zipWith max r.lower lower
        upper := List.zipWith min r.upper upper }
  else
    { r with lower := lower, upper := upper }

/-- The diagonal `np.diag(covariance)` of a square matrix stored as a list of
rows. -/
def matrixDiag {α : Type} [Zero α] (cov : List (List α)) : List α :=
  (List.range cov.length).map (fun i => (cov.getD i []).getD i 0)

/-- Embedding of `RectangularConfidenceRegion.update` (confidence_region.py
75-101).  The code first checks `covariance.shape[-1] != covariance.shape[-2]`
(numpy arrays are rectangular, so squareness is every row having as many
entries as there are rows, modelled here on the list of rows), then forms
`std = np.sqrt(np.diag(covariance.squeeze()))` (line 92),
`L = mean - std * scale`, `U = mean + std * scale`, and either intersects
iteratively or replaces the bounds.  For a square `(d, d)` covariance,
`covariance.squeeze()` is the identity except when `d = 1`: a `(1, 1)` array
squeezes to a 0-d array, on which `np.diag` raises
`ValueError: Input must be 1- or 2-d.` — so at a one-dimensional covariance
`update` raises before any bound is assigned (the region state is left
unchanged).  `np.sqrt` is passed in as `sqrtFn`; theorems instantiate it with
`Real.sqrt`. -/
def RectangularConfidenceRegion.update {α : Type} [LinearOrderedField α]
    (sqrtFn : α → α) (r : RectangularConfidenceRegion α)
    (mean : List α) (cov : List (List α)) (scale : List α) :
    Except PyErr (RectangularConfidenceRegion α) :=
  if cov.all (fun row => decide (row.length = cov.length)) then
    if cov.length = 1 then
      .error .valueError
    else
      let std := (matrixDiag cov).map sqrtFn
      let L := List.zipWith (fun x y => x - y) mean (List.zipWith (· * ·) std scale)
      let U := List.zipWith (fun x y => x + y) mean (List.zipWith (· * ·) std scale)
      if r.intersect_iteratively then
        .ok (r.intersect L U)
      else
        .ok { r with lower := L, upper := U }
  else
    .error .assertionError

/-- Embedding of `RectangularConfidenceRegion.is_dominated` (confidence_region.py
132-160).  The ordering object is external, so its `dominates` method is a
function parameter.  After the slackness assertion, the code returns `False`
as soon as some vertex pair fails `order.dominates(vert2 + slackness, vert1)`
and `True` otherwise. -/
def RectangularConfidenceRegion.is_dominated {α : Type} [LinearOrderedField α]
    (dominates : List α → List α → Bool)
    (obj1 obj2 : RectangularConfidenceRegion α) (slackness : SlacknessSpec α) :
    Except PyErr Bool :=
  if slackness.sizeOk obj1.lower.length then
    .ok ((hyperrectangle_get_vertices obj1.lower obj1.upper).all (fun vert1 =>
      (hyperrectangle_get_vertices obj2.lower obj2.upper).all (fun vert2 =>
        dominates (addSlack vert2 slackness) vert1)))
  else
    .error .assertionError

/-- Embedding of the status decoding of `RectangularConfidenceRegion.is_covered`
(confidence_region.py 195-243).  The LP is handed to the external solver; the
value of `prob.status` after the solve attempts is the `status` argument.  The
code runs the slackness assertion (with `m = cone_matrix.shape[1]`), then
returns `True` if `prob.status is None`, else `prob.status == "optimal"`. -/
def RectangularConfidenceRegion.is_covered {α : Type} [LinearOrderedField α]
    (coneCols : ℕ) (obj1 obj2 : RectangularConfidenceRegion α)
    (slackness : SlacknessSpec α) (status : Option CvxStatus) : Except PyErr Bool :=
  if slackness.sizeOk coneCols then
    match status with
    | none => .ok true
    | some s => .ok (s.statusStr == "optimal")
  else
    .error .assertionError

/-- Embedding of the status decoding of `EllipsoidalConfidenceRegion.is_covered`
(confidence_region.py 385-437).  After the slackness assertion (with
`cone_matrix.shape[0]` constraints), the code evaluates
`"infeasible" in prob.status`: when `prob.status` is a string this is a
substring test, and when `prob.status` is `None` the `in` operator raises
`TypeError`. -/
def EllipsoidalConfidenceRegion.is_covered {α : Type} [LinearOrderedField α]
    (coneRows : ℕ) (obj1 obj2 : EllipsoidalConfidenceRegion α)
    (slackness : SlacknessSpec α) (status : Option CvxStatus) : Except PyErr Bool :=
  if slackness.sizeOk coneRows then
    match status with
    | none => .error .typeError
    | some s => .ok (!(charContains "infeasible".toList s.statusStr.toList))
  else
    .error .assertionError

/-- Embedding of `EllipsoidalConfidenceRegion.check_dominates`
(confidence_region.py 359-383): the body is `raise NotImplementedError`,
regardless of the arguments (which is why they are received at the dispatch
type). -/
def EllipsoidalConfidenceRegion.check_dominates {α : Type} (obj1 obj2 : α) :
    Except PyErr Bool :=
  .error .notImplementedError

/-! ## Dispatch helpers (`src/vectoptal/confidence_region.py` 440-520) -/

/-- A value of the abstract `ConfidenceRegion` type as the dispatch helpers
receive it: one of the two concrete variants, or an instance of some other
subclass of the abstract base class. -/
inductive CRegion (α : Type) where
  | rect (r : RectangularConfidenceRegion α)
  | ellips (e : EllipsoidalConfidenceRegion α)
  | otherSubclass

/-- The variant whose class method an `isinstance` dispatch selected. -/
inductive DispatchTarget where
  | rectangular
  | ellipsoidal
deriving DecidableEq

/-- Embedding of `confidence_region_is_dominated` (confidence_region.py
440-463): `isinstance(region1, RectangularConfidenceRegion)` selects the
rectangular class method, `isinstance(region1, EllipsoidalConfidenceRegion)`
the ellipsoidal one, and anything else raises `NotImplementedError`.  The
result records the selected method together with the argument pair passed on
to it (both regions, unchanged and uninspected). -/
def confidence_region_is_dominated {α : Type} (region1 region2 : CRegion α) :
    Except PyErr (DispatchTarget × CRegion α × CRegion α) :=
  match region1 with
  | .rect _ => .ok (.rectangular, region1, region2)
  | .ellips _ => .ok (.ellipsoidal, region1, region2)
  | .otherSubclass => .error .notImplementedError

/-- Embedding of the dispatch performed by `confidence_region_check_dominates`
(confidence_region.py 466-491), with the same shape as
`confidence_region_is_dominated`. -/
def confidence_region_check_dominates {α : Type} (region1 region2 : CRegion α) :
    Except PyErr (DispatchTarget × CRegion α × CRegion α) :=
  match region1 with
  | .rect _ => .ok (.rectangular, region1, region2)
  | .ellips _ => .ok (.ellipsoidal, region1, region2)
  | .otherSubclass => .error .notImplementedError

/-- Embedding of `confidence_region_is_covered` (confidence_region.py
494-520), with the same dispatch shape. -/
def confidence_region_is_covered {α : Type} (region1 region2 : CRegion α) :
    Except PyErr (DispatchTarget × CRegion α × CRegion α) :=
  match region1 with
  | .rect _ => .ok (.rectangular, region1, region2)
  | .ellips _ => .ok (.ellipsoidal, region1, region2)
  | .otherSubclass => .error .notImplementedError

/-- Full behavior of `confidence_region_check_dominates` including the
invoked method: the rectangular branch runs
`RectangularConfidenceRegion.check_dominates` (supplied as a parameter, since
its body is a normal computation that returns a boolean), while the
ellipsoidal branch runs `EllipsoidalConfidenceRegion.check_dominates`, whose
body raises `NotImplementedError`. -/
def confidence_region_check_dominates_run {α : Type}
    (rectMethod : CRegion α → CRegion α → Except PyErr Bool)
    (region1 region2 : CRegion α) : Except PyErr Bool :=
  match region1 with
  | .rect _ => rectMethod region1 region2
  | .ellips _ => EllipsoidalConfidenceRegion.check_dominates region1 region2
  | .otherSubclass => .error .notImplementedError

/-! ## Helper lemmas -/

theorem hyperrectangle_check_intersection_eq {α : Type} [LinearOrder α]
    (lower1 upper1 lower2 upper2 : List α) :
    hyperrectangle_check_intersection lower1 upper1 lower2 upper2 =
      !(((lower1.zip upper2).any fun p => decide (p.2 ≤ p.1))
          || ((upper1.zip lower2).any fun p => decide (p.1 ≤ p.2))) := by
  unfold hyperrectangle_check_intersection
  cases h : ((lower1.zip upper2).any fun p => decide (p.2 ≤ p.1))
      || ((upper1.zip lower2).any fun p => decide (p.1 ≤ p.2)) <;> simp [h]

theorem hyperrectangle_check_intersection_true_iff {α : Type} [LinearOrder α]
    (lower1 upper1 lower2 upper2 : List α) :
    hyperrectangle_check_intersection lower1 upper1 lower2 upper2 = true ↔
      ((∀ p ∈ lower1.zip upper2, p.1 < p.2) ∧ (∀ p ∈ upper1.zip lower2, p.2 < p.1)) := by
  rw [hyperrectangle_check_intersection_eq]
  simp [not_le]

theorem forall_mem_zip_iff {α β : Type} {P : α × β → Prop} (l1 : List α) (l2 : List β) :
    (∀ p ∈ l1.zip l2, P p) ↔
      ∀ (i : ℕ) (h1 : i < l1.length) (h2 : i < l2.length), P (l1.get ⟨i, h1⟩, l2.get ⟨i, h2⟩) := by
  constructor
  · intro h i h1 h2
    have hi : i < (l1.zip l2).length := by
      rw [List.length_zip]
      exact lt_min h1 h2
    have hm := h ((l1.zip l2).get ⟨i, hi⟩) (List.get_mem _ _ _)
    simpa [List.get_eq_getElem, List.getElem_zip] using hm
  · intro h p hp
    rcases List.mem_iff_getElem.mp hp with ⟨i, hi, rfl⟩
    have h1 : i < l1.length := by
      rw [List.length_zip] at hi
      exact lt_of_lt_of_le hi (min_le_left _ _)
    have h2 : i < l2.length := by
      rw [List.length_zip] at hi
      exact lt_of_lt_of_le hi (min_le_right _ _)
    have hm := h i h1 h2
    simpa [List.get_eq_getElem, List.getElem_zip] using hm

theorem zip_all_le_iff {α : Type} [LinearOrder α] {l u : List α} (h : l.length = u.length) :
    ((l.zip u).all fun p => decide (p.1 ≤ p.2)) = true ↔ List.Forall₂ (· ≤ ·) l u := by
  rw [List.forall₂_iff_zip]
  simp only [List.all_eq_true, decide_eq_true_eq]
  constructor
  · intro hall
    exact ⟨h, fun {a b} hab => hall (a, b) hab⟩
  · rintro ⟨-, hall⟩ ⟨a, b⟩ hp
    exact hall hp

theorem charContains_infeasible_iff (s : CvxStatus) :
    charContains "infeasible".toList s.statusStr.toList =
      (decide (s = CvxStatus.infeasible) || decide (s = CvxStatus.infeasible_inaccurate)) := by
  cases s <;> rfl

/-! ## Claim C1: status decoding of the `is_covered` feasibility checks -/

/-- C1 counterexample.  The claim says `is_covered` returns true whenever the
status after both solve attempts is indeterminate (neither a feasible/optimal
report nor an infeasible report) and false only on an infeasible report.  At
the indeterminate status `unbounded` the rectangular variant returns false,
and at the indeterminate status `None` the ellipsoidal variant raises a
`TypeError` (from `"infeasible" in None`) instead of returning true. -/
theorem c1_is_covered_status_counterexample :
    RectangularConfidenceRegion.is_covered (α := ℚ) 2 ⟨false, [0, 0], [1, 1]⟩
      ⟨false, [0, 0], [1, 1]⟩ (.scalar 0) (some .unbounded) = .ok false ∧
    EllipsoidalConfidenceRegion.is_covered (α := ℚ) 2 ⟨[0, 0], [[1, 0], [0, 1]], 1⟩
      ⟨[0, 0], [[1, 0], [0, 1]], 1⟩ (.scalar 0) none = .error .typeError := by
  constructor <;> rfl

/-- C1, amended.  For every pair of confidence regions and valid slackness:
the rectangular `is_covered` returns true exactly when the solver status is
`None` or exactly `"optimal"` (any other status, including the indeterminate
ones, yields false), while the ellipsoidal `is_covered` returns false exactly
when the status string contains `"infeasible"`, returns true for every other
string status, and raises a `TypeError` when the status is `None`. -/
theorem c1_is_covered_status_decoding {α : Type} [LinearOrderedField α]
    (coneCols coneRows : ℕ)
    (obj1 obj2 : RectangularConfidenceRegion α) (eobj1 eobj2 : EllipsoidalConfidenceRegion α)
    (slackness : SlacknessSpec α) (status : Option CvxStatus)
    (hc : slackness.sizeOk coneCols = true) (hr : slackness.sizeOk coneRows = true) :
    RectangularConfidenceRegion.is_covered coneCols obj1 obj2 slackness status =
      .ok (decide (status = none ∨ status = some CvxStatus.optimal)) ∧
    EllipsoidalConfidenceRegion.is_covered coneRows eobj1 eobj2 slackness status =
      (match status with
        | none => Except.error PyErr.typeError
        | some s => Except.ok (!(decide (s = CvxStatus.infeasible)
            || decide (s = CvxStatus.infeasible_inaccurate)))) := by
  constructor
  · simp only [RectangularConfidenceRegion.is_covered, hc, if_true]
    cases status with
    | none => rfl
    | some s => cases s <;> rfl
  · simp only [EllipsoidalConfidenceRegion.is_covered, hr, if_true]
    cases status with
    | none => rfl
    | some s =>
        exact congrArg (fun b => Except.ok (!b)) (charContains_infeasible_iff s)

/-- Witness for `c1_is_covered_status_decoding` at a concrete input. -/
theorem c1_is_covered_status_decoding_witness :
    SlacknessSpec.sizeOk (α := ℚ) 1 (SlacknessSpec.scalar 0) = true ∧
    RectangularConfidenceRegion.is_covered (α := ℚ) 1 ⟨false, [0], [1]⟩ ⟨false, [0], [1]⟩
      (.scalar 0) (some .optimal) =
      .ok (decide ((some CvxStatus.optimal) = none
        ∨ (some CvxStatus.optimal) = some CvxStatus.optimal)) :=
  ⟨rfl, (c1_is_covered_status_decoding 1 1 ⟨false, [0], [1]⟩ ⟨false, [0], [1]⟩
      ⟨[0], [[1]], 1⟩ ⟨[0], [[1]], 1⟩ (.scalar 0) (some .optimal) rfl rfl).1⟩

/-! ## Claim C2: boxes sharing only a boundary face -/

/-- C2 counterexample.  The one-dimensional boxes `[0, 1]` and `[1, 2]` are
well formed, share only the boundary point `1` (the lower bound of box2
equals the upper bound of box1) and their ranges overlap in the only
dimension, yet
`hyperrectangle_check_intersection` returns false — the claim says true. -/
theorem c2_touching_boxes_counterexample :
    hyperrectangle_check_intersection [(0 : ℚ)] [1] [1] [2] = false ∧
    (0 : ℚ) ≤ 1 ∧ (1 : ℚ) ≤ 2 ∧ ((1 : ℚ) = 1) ∧ ((0 : ℚ) ≤ 2 ∧ (1 : ℚ) ≤ 1) := by
  decide

/-- C2, amended.  For every pair of well-formed axis-aligned boxes that share
a boundary face (in some dimension the lower bound of one box equals the
upper bound of the other, while their ranges overlap in every dimension),
`hyperrectangle_check_intersection` returns false, not true: the elementwise
comparisons `lower1 >= upper2` and `upper1 <= lower2` are non-strict, so
boundary contact is reported as non-intersection. -/
theorem c2_boundary_face_not_intersecting {α : Type} [LinearOrder α] {d : ℕ}
    (lower1 upper1 lower2 upper2 : List α)
    (hl1 : lower1.length = d) (hu1 : upper1.length = d)
    (hl2 : lower2.length = d) (hu2 : upper2.length = d)
    (hord1 : List.Forall₂ (· ≤ ·) lower1 upper1)
    (hord2 : List.Forall₂ (· ≤ ·) lower2 upper2)
    (hoverlap : ∀ (i : ℕ) (hi : i < d),
      lower1.get ⟨i, by omega⟩ ≤ upper2.get ⟨i, by omega⟩ ∧
      lower2.get ⟨i, by omega⟩ ≤ upper1.get ⟨i, by omega⟩)
    (hface : ∃ (i : ℕ) (hi : i < d),
      lower1.get ⟨i, by omega⟩ = upper2.get ⟨i, by omega⟩ ∨
      lower2.get ⟨i, by omega⟩ = upper1.get ⟨i, by omega⟩) :
    hyperrectangle_check_intersection lower1 upper1 lower2 upper2 = false := by
  rcases hface with ⟨i, hi, hcase⟩
  have hnt : ¬ hyperrectangle_check_intersection lower1 upper1 lower2 upper2 = true := by
    rw [hyperrectangle_check_intersection_true_iff]
    rintro ⟨h1, h2⟩
    rw [forall_mem_zip_iff] at h1 h2
    rcases hcase with heq | heq
    · exact absurd (h1 i (by omega) (by omega)) (by rw [heq]; exact lt_irrefl _)
    · exact absurd (h2 i (by omega) (by omega)) (by rw [heq]; exact lt_irrefl _)
  exact Bool.eq_false_iff.mpr hnt

/-- Witness for `c2_boundary_face_not_intersecting` at a concrete input. -/
theorem c2_boundary_face_not_intersecting_witness :
    hyperrectangle_check_intersection [(0 : ℚ)] [1] [1] [2] = false :=
  c2_boundary_face_not_intersecting (d := 1) _ _ _ _ rfl rfl rfl rfl
    (by decide) (by decide) (by decide) ⟨0, by omega, Or.inr rfl⟩

/-! ## Claim C6: the `m(i,j)` formula -/

/-- C6.  The claim states `get_smallmij(vi, vj, W, alpha_vec)` equals
`min_k max(0, (W(vj - vi))_k) / alpha_vec_k`.  With the `(n, 1)`-shaped
`alpha_vec` column that `get_alpha_vec` produces, numpy broadcasting instead
takes the minimum of the `(n, n)` outer quotient matrix.  At
`vi = [0]`, `vj = [1]`, `W = [[1], [2]]`, `alpha_vec = [[1], [2]]` the code
returns `min{1/1, 2/1, 1/2, 2/2} = 1/2`, while the claimed per-row formula
(which is also the expected-value formula of the test `TestGetSmallmij` in
the repository) gives `min{1/1, 2/2} = 1`. -/
theorem c6_smallmij_broadcast_evaluation :
    get_smallmij (α := ℚ) ![0] ![1] ![![1], ![2]] ![1, 2] = 1 / 2 ∧
    get_smallmij_rowwise (α := ℚ) ![0] ![1] ![![1], ![2]] ![1, 2] = 1 := by
  constructor
  · unfold get_smallmij
    refine le_antisymm ?_ ?_
    · refine le_trans (Finset.inf'_le _ (Finset.mem_univ ((1 : Fin 2), (0 : Fin 2)))) ?_
      norm_num [Fin.sum_univ_one, Matrix.cons_val_zero, Matrix.cons_val_one, Matrix.head_cons]
    · refine Finset.le_inf' _ _ ?_
      intro p _
      fin_cases p <;>
        norm_num [Fin.sum_univ_one, Matrix.cons_val_zero, Matrix.cons_val_one, Matrix.head_cons]
  · unfold get_smallmij_rowwise
    refine le_antisymm ?_ ?_
    · refine le_trans (Finset.inf'_le _ (Finset.mem_univ (0 : Fin 2))) ?_
      norm_num [Fin.sum_univ_one, Matrix.cons_val_zero, Matrix.cons_val_one, Matrix.head_cons]
    · refine Finset.le_inf' _ _ ?_
      intro k _
      fin_cases k <;>
        norm_num [Fin.sum_univ_one, Matrix.cons_val_zero, Matrix.cons_val_one, Matrix.head_cons]

/-! ## Claim C7: SCS fallback policy -/

/-- C7 counterexample.  The claim says `get_alpha` and the point-wise
`is_covered` retry once with the SCS fallback when the primary solver raises.
In the code neither has a `try`/`except`: when the primary attempt raises
`SolverError` the error propagates even though the SCS attempt would have
finished. -/
theorem c7_bare_solve_counterexample :
    get_alpha_solve (σ := Option CvxStatus) .raisesSolverError (.finished (some .optimal)) =
      .error .solverError ∧
    utils_is_covered_solve (σ := Option CvxStatus) .raisesSolverError (.finished (some .optimal)) =
      .error .solverError := ⟨rfl, rfl⟩

/-- C7, amended.  Only the three confidence-region solves
(`RectangularConfidenceRegion.is_covered`, the per-row solves of
`EllipsoidalConfidenceRegion.is_dominated`, and
`EllipsoidalConfidenceRegion.is_covered`) retry once with the SCS fallback
when the primary solver raises; `get_alpha` and the point-wise `is_covered`
in utils.py call the primary solver once and propagate any solver error
without consulting a fallback. -/
theorem c7_scs_retry_policy {σ : Type} (s s2 : σ) (scs : SolveAttempt σ) :
    rect_is_covered_solve (.finished s) scs = .ok s ∧
    rect_is_covered_solve .raisesSolverError (.finished s2) = .ok s2 ∧
    rect_is_covered_solve (σ := σ) .raisesSolverError .raisesSolverError = .error .solverError ∧
    ellips_is_dominated_solve (.finished s) scs = .ok s ∧
    ellips_is_dominated_solve .raisesSolverError (.finished s2) = .ok s2 ∧
    ellips_is_dominated_solve (σ := σ) .raisesSolverError .raisesSolverError =
      .error .solverError ∧
    ellips_is_covered_solve (.finished s) scs = .ok s ∧
    ellips_is_covered_solve .raisesSolverError (.finished s2) = .ok s2 ∧
    ellips_is_covered_solve (σ := σ) .raisesSolverError .raisesSolverError =
      .error .solverError ∧
    get_alpha_solve (.finished s) scs = .ok s ∧
    get_alpha_solve .raisesSolverError scs = .error .solverError ∧
    utils_is_covered_solve (.finished s) scs = .ok s ∧
    utils_is_covered_solve .raisesSolverError scs = .error .solverError :=
  ⟨rfl, rfl, rfl, rfl, rfl, rfl, rfl, rfl, rfl, rfl, rfl, rfl, rfl⟩

/-! ## Claim C10: dispatch helpers -/

/-- C10 counterexample.  The claim says the helpers raise
`NotImplementedError` exactly when `region1` is neither rectangular nor
ellipsoidal.  But `confidence_region_check_dominates` with an ellipsoidal
`region1` propagates the `NotImplementedError` raised inside
`EllipsoidalConfidenceRegion.check_dominates` (whose body is just `raise`),
so a `NotImplementedError` also escapes for an ellipsoidal `region1`. -/
theorem c10_check_dominates_ellipsoidal_counterexample :
    confidence_region_check_dominates_run (α := ℚ) (fun _ _ => .ok true)
      (.ellips ⟨[0], [[1]], 1⟩) (.rect ⟨false, [0], [1]⟩) = .error .notImplementedError := rfl

/-- C10, amended.  All three dispatch helpers select the variant method from
the runtime type of `region1` alone: both regions are handed to the selected
method unchanged and `region2` is never inspected (a mixed pair is dispatched
to the rectangular method without any dispatch error), and the dispatch code
of the helpers themselves raises `NotImplementedError` exactly when `region1` is neither
variant; additionally, `confidence_region_check_dominates` propagates the
`NotImplementedError` raised by the unimplemented
`EllipsoidalConfidenceRegion.check_dominates` whenever `region1` is
ellipsoidal. -/
theorem c10_dispatch_on_region1 {α : Type} :
    (∀ (r : RectangularConfidenceRegion α) (region2 : CRegion α),
      confidence_region_is_dominated (.rect r) region2 = .ok (.rectangular, .rect r, region2) ∧
      confidence_region_check_dominates (.rect r) region2 =
        .ok (.rectangular, .rect r, region2) ∧
      confidence_region_is_covered (.rect r) region2 = .ok (.rectangular, .rect r, region2)) ∧
    (∀ (e : EllipsoidalConfidenceRegion α) (region2 : CRegion α),
      confidence_region_is_dominated (.ellips e) region2 =
        .ok (.ellipsoidal, .ellips e, region2) ∧
      confidence_region_check_dominates (.ellips e) region2 =
        .ok (.ellipsoidal, .ellips e, region2) ∧
      confidence_region_is_covered (.ellips e) region2 =
        .ok (.ellipsoidal, .ellips e, region2)) ∧
    (∀ region2 : CRegion α,
      confidence_region_is_dominated .otherSubclass region2 = .error .notImplementedError ∧
      confidence_region_check_dominates .otherSubclass region2 = .error .notImplementedError ∧
      confidence_region_is_covered .otherSubclass region2 = .error .notImplementedError) ∧
    (∀ (rectMethod : CRegion α → CRegion α → Except PyErr Bool)
      (e : EllipsoidalConfidenceRegion α) (region2 : CRegion α),
      confidence_region_check_dominates_run rectMethod (.ellips e) region2 =
        .error .notImplementedError) :=
  ⟨fun _ _ => ⟨rfl, rfl, rfl⟩, fun _ _ => ⟨rfl, rfl, rfl⟩, fun _ => ⟨rfl, rfl, rfl⟩,
    fun _ _ _ => rfl⟩

/-! ## Claims C3 and C4: gap statistics and vertex-pair domination -/

theorem foldl_max_init_le {α : Type} [LinearOrder α] {β : Type} (f : β → α) (l : List β)
    (a : α) : a ≤ l.foldl (fun acc x => max acc (f x)) a := by
  induction l generalizing a with
  | nil => exact le_refl a
  | cons x xs ih => exact le_trans (le_max_left a (f x)) (ih (max a (f x)))

theorem foldl_max_le_of_mem {α : Type} [LinearOrder α] {β : Type} (f : β → α) (l : List β)
    {x : β} (a : α) : x ∈ l → f x ≤ l.foldl (fun acc y => max acc (f y)) a := by
  induction l generalizing a with
  | nil => intro hx; cases hx
  | cons y ys ih =>
      intro hx
      rcases List.mem_cons.mp hx with rfl | h
      · exact le_trans (le_max_right a (f x)) (foldl_max_init_le f ys _)
      · exact ih _ h

theorem foldl_max_le {α : Type} [LinearOrder α] {β : Type} (f : β → α) (l : List β) :
    ∀ (a c : α), a ≤ c → (∀ x ∈ l, f x ≤ c) →
      l.foldl (fun acc y => max acc (f y)) a ≤ c := by
  induction l with
  | nil => intro a c ha _; exact ha
  | cons y ys ih =>
      intro a c ha hf
      exact ih (max a (f y)) c (max_le ha (hf y (List.mem_cons_self y ys)))
        (fun x hx => hf x (List.mem_cons_of_mem _ hx))

theorem get_smallmij_nonneg {α : Type} [LinearOrderedField α] {D m : ℕ}
    (vi vj : Fin D → α) (W : Fin (m + 1) → Fin D → α) (alpha_vec : Fin (m + 1) → α)
    (hα : ∀ k, 0 < alpha_vec k) : 0 ≤ get_smallmij vi vj W alpha_vec := by
  simp only [get_smallmij]
  refine Finset.le_inf' _ _ ?_
  intro p _
  refine div_nonneg ?_ (hα p.1).le
  split
  · exact le_rfl
  · exact le_of_not_lt (by assumption)

/-- C3.  For every point array `mu`, cone matrix `W` and strictly positive
`alpha_vec`, `get_delta` returns at each index `i` exactly the maximum over
all `j` (including `j = i`) of `get_smallmij(mu[i], mu[j], W, alpha_vec)`; in
particular every entry is nonnegative and every `get_smallmij(mu[i], mu[j])`
is bounded by `get_delta(mu)[i]`. -/
theorem c3_get_delta_is_pairwise_max {α : Type} [LinearOrderedField α] {N D m : ℕ}
    (mu : Fin (N + 1) → Fin D → α) (W : Fin (m + 1) → Fin D → α)
    (alpha_vec : Fin (m + 1) → α) (hα : ∀ k, 0 < alpha_vec k) (i : Fin (N + 1)) :
    get_delta mu W alpha_vec i =
      Finset.univ.sup' Finset.univ_nonempty
        (fun j => get_smallmij (mu i) (mu j) W alpha_vec) ∧
    0 ≤ get_delta mu W alpha_vec i ∧
    ∀ j, get_smallmij (mu i) (mu j) W alpha_vec ≤ get_delta mu W alpha_vec i := by
  have hrfl : get_delta mu W alpha_vec i =
      (List.finRange (N + 1)).foldl
        (fun acc j => max acc (get_smallmij (mu i) (mu j) W alpha_vec)) 0 := rfl
  rw [hrfl]
  have hle : ∀ j, get_smallmij (mu i) (mu j) W alpha_vec ≤
      (List.finRange (N + 1)).foldl
        (fun acc j => max acc (get_smallmij (mu i) (mu j) W alpha_vec)) 0 :=
    fun j => foldl_max_le_of_mem (fun j => get_smallmij (mu i) (mu j) W alpha_vec) _ _
      (List.mem_finRange j)
  refine ⟨?_, ?_, hle⟩
  · refine le_antisymm ?_ ?_
    · have h0 : (0 : α) ≤ Finset.univ.sup' Finset.univ_nonempty
          (fun j => get_smallmij (mu i) (mu j) W alpha_vec) :=
        le_trans (get_smallmij_nonneg (mu i) (mu i) W alpha_vec hα)
          (Finset.le_sup' (fun j => get_smallmij (mu i) (mu j) W alpha_vec)
            (Finset.mem_univ i))
      exact foldl_max_le (fun j => get_smallmij (mu i) (mu j) W alpha_vec) _ 0 _ h0
        (fun j _ => Finset.le_sup' (fun j => get_smallmij (mu i) (mu j) W alpha_vec)
          (Finset.mem_univ j))
    · exact Finset.sup'_le _ _ (fun j _ => hle j)
  · exact le_trans (get_smallmij_nonneg (mu i) (mu i) W alpha_vec hα) (hle i)

/-- Witness for `c3_get_delta_is_pairwise_max` at a concrete input. -/
theorem c3_get_delta_is_pairwise_max_witness :
    0 ≤ get_delta (α := ℚ) ![![0], ![1]] ![![1]] ![1] 0 :=
  (c3_get_delta_is_pairwise_max ![![0], ![1]] ![![1]] ![1] (by decide) 0).2.1

/-- C4.  For every ordering (an arbitrary `dominates` predicate), every pair
of well-formed rectangular confidence regions and every slackness that is a
scalar or a vector of the region dimension,
`RectangularConfidenceRegion.is_dominated` returns true if and only if
`dominates (v2 + slackness) v1` holds for every vertex `v1` of `obj1` and
every vertex `v2` of `obj2`. -/
theorem c4_is_dominated_iff {α : Type} [LinearOrderedField α]
    (dominates : List α → List α → Bool)
    (obj1 obj2 : RectangularConfidenceRegion α) (slackness : SlacknessSpec α)
    (hord1 : List.Forall₂ (· ≤ ·) obj1.lower obj1.upper)
    (hord2 : List.Forall₂ (· ≤ ·) obj2.lower obj2.upper)
    (hs : (∃ s, slackness = .scalar s) ∨
      (∃ w, slackness = .vec w ∧ w.length = obj1.lower.length)) :
    RectangularConfidenceRegion.is_dominated dominates obj1 obj2 slackness = .ok true ↔
      ∀ v1 ∈ hyperrectangle_get_vertices obj1.lower obj1.upper,
        ∀ v2 ∈ hyperrectangle_get_vertices obj2.lower obj2.upper,
          dominates (addSlack v2 slackness) v1 = true := by
  have hsz : slackness.sizeOk obj1.lower.length = true := by
    rcases hs with ⟨s, rfl⟩ | ⟨w, rfl, hw⟩
    · rfl
    · simp [SlacknessSpec.sizeOk, hw]
  simp [RectangularConfidenceRegion.is_dominated, hsz, List.all_eq_true]

/-- Witness for `c4_is_dominated_iff` at a concrete input. -/
theorem c4_is_dominated_iff_witness :
    List.Forall₂ (α := ℚ) (· ≤ ·) [0] [1] ∧
    (RectangularConfidenceRegion.is_dominated
        (fun a b => decide (b.headD 0 ≤ a.headD 0))
        ⟨false, [(0 : ℚ)], [1]⟩ ⟨false, [2], [3]⟩ (.scalar 0) = .ok true ↔
      ∀ v1 ∈ hyperrectangle_get_vertices [(0 : ℚ)] [1],
        ∀ v2 ∈ hyperrectangle_get_vertices [(2 : ℚ)] [3],
          (fun a b => decide (b.headD 0 ≤ a.headD 0)) (addSlack v2 (.scalar 0)) v1 = true) :=
  ⟨by decide,
    c4_is_dominated_iff (fun a b => decide (b.headD 0 ≤ a.headD 0))
      ⟨false, [(0 : ℚ)], [1]⟩ ⟨false, [2], [3]⟩ (.scalar 0)
      (by decide) (by decide) (Or.inl ⟨0, rfl⟩)⟩

/-! ## Claim C8: vertex enumeration of a hyperrectangle -/

theorem vertexProduct_length {α : Type} (ps : List (α × α)) :
    (vertexProduct ps).length = 2 ^ ps.length := by
  induction ps with
  | nil => rfl
  | cons p rest ih =>
      simp [vertexProduct, ih, pow_succ]
      ring

theorem vertexProduct_length_mem {α : Type} {ps : List (α × α)} {v : List α}
    (hv : v ∈ vertexProduct ps) : v.length = ps.length := by
  induction ps generalizing v with
  | nil =>
      simp [vertexProduct] at hv
      simp [hv]
  | cons p rest ih =>
      simp only [vertexProduct, List.mem_append, List.mem_map] at hv
      rcases hv with ⟨w, hw, rfl⟩ | ⟨w, hw, rfl⟩ <;> simp [ih hw]

theorem vertexProduct_getD_left {α : Type} (p : α × α) (ps : List (α × α)) (k : ℕ)
    (hk : k < 2 ^ ps.length) :
    (vertexProduct (p :: ps)).getD k [] = p.1 :: (vertexProduct ps).getD k [] := by
  have hk2 : k < (vertexProduct ps).length := by rw [vertexProduct_length]; exact hk
  have h1 : k < ((vertexProduct ps).map (fun v => p.1 :: v)).length := by simpa using hk2
  calc (vertexProduct (p :: ps)).getD k []
      = (((vertexProduct ps).map (fun v => p.1 :: v))
          ++ ((vertexProduct ps).map (fun v => p.2 :: v))).getD k [] := rfl
    _ = p.1 :: (vertexProduct ps).getD k [] := by
        rw [List.getD_eq_getElem?_getD, List.getElem?_append_left h1, List.getElem?_map,
          List.getElem?_eq_getElem hk2]
        simp [List.getElem?_eq_getElem hk2]

theorem vertexProduct_getD_right {α : Type} (p : α × α) (ps : List (α × α)) (k : ℕ)
    (hk : k < 2 ^ ps.length) :
    (vertexProduct (p :: ps)).getD (2 ^ ps.length + k) [] =
      p.2 :: (vertexProduct ps).getD k [] := by
  have hk2 : k < (vertexProduct ps).length := by rw [vertexProduct_length]; exact hk
  have hlenA : ((vertexProduct ps).map (fun v => p.1 :: v)).length = 2 ^ ps.length := by
    simp [vertexProduct_length]
  calc (vertexProduct (p :: ps)).getD (2 ^ ps.length + k) []
      = (((vertexProduct ps).map (fun v => p.1 :: v))
          ++ ((vertexProduct ps).map (fun v => p.2 :: v))).getD (2 ^ ps.length + k) [] := rfl
    _ = p.2 :: (vertexProduct ps).getD k [] := by
        rw [List.getD_eq_getElem?_getD, List.getElem?_append_right (by rw [hlenA]; omega),
          hlenA]
        have hidx : 2 ^ ps.length + k - 2 ^ ps.length = k := by omega
        rw [hidx, List.getElem?_map, List.getElem?_eq_getElem hk2]
        simp [List.getElem?_eq_getElem hk2]

theorem vertexProduct_getD_testBit {α : Type} (z : α) (ps : List (α × α)) :
    ∀ (k i : ℕ), k < 2 ^ ps.length → i < ps.length →
      ((vertexProduct ps).getD k []).getD i z =
        if Nat.testBit k (ps.length - 1 - i) then (ps.getD i (z, z)).2
        else (ps.getD i (z, z)).1 := by
  induction ps with
  | nil => intro k i _ hi; exact absurd hi (Nat.not_lt_zero i)
  | cons p rest ih =>
      intro k i hk hi
      by_cases hkn : k < 2 ^ rest.length
      · rw [vertexProduct_getD_left p rest k hkn]
        cases i with
        | zero =>
            have hbit : Nat.testBit k rest.length = false := Nat.testBit_lt_two_pow hkn
            simp [hbit]
        | succ j =>
            have hj : j < rest.length := by simpa using hi
            rw [show ((p :: rest).length - 1 - (j + 1)) = rest.length - 1 - j from by
              simp only [List.length_cons]; omega]
            simp only [List.getD_cons_succ]
            exact ih k j hkn hj
      · push_neg at hkn
        have hksucc : k < 2 ^ (rest.length + 1) := by simpa using hk
        have hpow : 2 ^ (rest.length + 1) = 2 ^ rest.length + 2 ^ rest.length := by ring
        have hk2 : k - 2 ^ rest.length < 2 ^ rest.length := by omega
        have hksplit : k = 2 ^ rest.length + (k - 2 ^ rest.length) := by omega
        rw [hksplit, vertexProduct_getD_right p rest _ hk2]
        cases i with
        | zero =>
            have hbit : Nat.testBit (2 ^ rest.length + (k - 2 ^ rest.length))
                rest.length = true := by
              rw [Nat.testBit_two_pow_add_eq]
              simp [Nat.testBit_lt_two_pow hk2]
            simp [hbit]
        | succ j =>
            have hj : j < rest.length := by simpa using hi
            have hlt : rest.length - 1 - j < rest.length := by omega
            rw [show ((p :: rest).length - 1 - (j + 1)) = rest.length - 1 - j from by
              simp only [List.length_cons]; omega]
            rw [Nat.testBit_two_pow_add_gt hlt]
            simp only [List.getD_cons_succ]
            exact ih _ j hk2 hj

theorem zip_getD {α : Type} (z : α) (lower upper : List α) (i : ℕ)
    (h1 : i < lower.length) (h2 : i < upper.length) :
    (lower.zip upper).getD i (z, z) = (lower.getD i z, upper.getD i z) := by
  have hz : i < (lower.zip upper).length := by rw [List.length_zip]; exact lt_min h1 h2
  rw [List.getD_eq_getElem _ _ hz, List.getD_eq_getElem _ _ h1, List.getD_eq_getElem _ _ h2,
    List.getElem_zip]

/-- C8.  For every well-formed pair of bound arrays of dimension `D`,
`hyperrectangle_get_vertices` returns exactly `2 ^ D` points, each of
dimension `D` and componentwise within `[lower, upper]`, and the points
appear in dimension-major binary-counter order: in dimension `i`, point `k`
holds `lower[i]` when bit `D - 1 - i` of `k` (the `i`-th most significant of
`D` bits) is 0 and `upper[i]` when it is 1. -/
theorem c8_get_vertices_enumeration {α : Type} [LinearOrderedField α] {D : ℕ}
    (lower upper : List α) (hl : lower.length = D) (hu : upper.length = D)
    (hord : List.Forall₂ (· ≤ ·) lower upper) :
    (hyperrectangle_get_vertices lower upper).length = 2 ^ D ∧
    (∀ v ∈ hyperrectangle_get_vertices lower upper, v.length = D ∧
      ∀ (i : ℕ), i < D → lower.getD i 0 ≤ v.getD i 0 ∧ v.getD i 0 ≤ upper.getD i 0) ∧
    (∀ (k : ℕ), k < 2 ^ D → ∀ (i : ℕ), i < D →
      ((hyperrectangle_get_vertices lower upper).getD k []).getD i 0 =
        if Nat.testBit k (D - 1 - i) then upper.getD i 0 else lower.getD i 0) := by
  have hzlen : (lower.zip upper).length = D := by rw [List.length_zip, hl, hu, min_self]
  have horder : ∀ (k : ℕ), k < 2 ^ D → ∀ (i : ℕ), i < D →
      ((hyperrectangle_get_vertices lower upper).getD k []).getD i 0 =
        if Nat.testBit k (D - 1 - i) then upper.getD i 0 else lower.getD i 0 := by
    intro k hk i hi
    have hres := vertexProduct_getD_testBit (0 : α) (lower.zip upper) k i
      (by rw [hzlen]; exact hk) (by rw [hzlen]; exact hi)
    rw [hzlen] at hres
    rw [hyperrectangle_get_vertices, hres,
      zip_getD 0 lower upper i (by omega) (by omega)]
  refine ⟨?_, ?_, horder⟩
  · rw [hyperrectangle_get_vertices, vertexProduct_length, hzlen]
  · intro v hv
    rw [hyperrectangle_get_vertices] at hv
    have hvlen : v.length = D := by rw [← hzlen]; exact vertexProduct_length_mem hv
    refine ⟨hvlen, ?_⟩
    intro i hi
    rcases List.mem_iff_getElem.mp hv with ⟨k, hk, hkv⟩
    have hk2 : k < 2 ^ D := by
      rw [vertexProduct_length, hzlen] at hk
      exact hk
    have hvk : v.getD i 0 = ((hyperrectangle_get_vertices lower upper).getD k []).getD i 0 := by
      rw [hyperrectangle_get_vertices, List.getD_eq_getElem _ _ hk, hkv]
    have hlu : lower.getD i 0 ≤ upper.getD i 0 := by
      rw [List.getD_eq_getElem _ _ (by omega), List.getD_eq_getElem _ _ (by omega)]
      have hg := hord.get (show i < lower.length by omega) (show i < upper.length by omega)
      simpa [List.get_eq_getElem] using hg
    rw [hvk, horder k hk2 i hi]
    split
    · exact ⟨hlu, le_rfl⟩
    · exact ⟨le_rfl, hlu⟩

/-- Witness for `c8_get_vertices_enumeration` at a concrete input. -/
theorem c8_get_vertices_enumeration_witness :
    (hyperrectangle_get_vertices [(0 : ℚ), 0] [1, 1]).length = 2 ^ 2 :=
  (c8_get_vertices_enumeration [(0 : ℚ), 0] [1, 1] rfl rfl (by decide)).1

/-! ## Claims C5 and C9: hyperrectangle update and bounds invariant -/

theorem forall₂_le_replicate {α : Type} [Preorder α] {a b : α} (h : a ≤ b) (n : ℕ) :
    List.Forall₂ (· ≤ ·) (List.replicate n a) (List.replicate n b) := by
  induction n with
  | zero => exact List.Forall₂.nil
  | succ n ih => exact List.Forall₂.cons h ih

theorem zipWith_sub_le_zipWith_add {α : Type} [LinearOrderedField α] (mean : List α) :
    ∀ (q : List α), (∀ x ∈ q, 0 ≤ x) →
      List.Forall₂ (· ≤ ·) (List.zipWith (fun x y => x - y) mean q)
        (List.zipWith (fun x y => x + y) mean q) := by
  induction mean with
  | nil => intro q _; exact List.Forall₂.nil
  | cons x xs ih =>
      intro q hq
      cases q with
      | nil => exact List.Forall₂.nil
      | cons y ys =>
          refine List.Forall₂.cons ?_ (ih ys (fun t ht => hq t (List.mem_cons_of_mem _ ht)))
          have h0 : 0 ≤ y := hq y (List.mem_cons_self _ _)
          show x - y ≤ x + y
          linarith

theorem zipWith_mul_nonneg {α : Type} [LinearOrderedField α] (std : List α) :
    ∀ (scale : List α), (∀ x ∈ std, 0 ≤ x) → (∀ x ∈ scale, 0 ≤ x) →
      ∀ y ∈ List.zipWith (· * ·) std scale, 0 ≤ y := by
  induction std with
  | nil => intro scale _ _ y hy; simp at hy
  | cons a as ih =>
      intro scale hs hsc y hy
      cases scale with
      | nil => simp at hy
      | cons b bs =>
          simp only [List.zipWith_cons_cons, List.mem_cons] at hy
          rcases hy with rfl | hy
          · exact mul_nonneg (hs a (List.mem_cons_self _ _)) (hsc b (List.mem_cons_self _ _))
          · exact ih bs (fun t ht => hs t (List.mem_cons_of_mem _ ht))
              (fun t ht => hsc t (List.mem_cons_of_mem _ ht)) y hy

theorem forall₂_le_intersect {α : Type} [LinearOrder α]
    (l1 u1 l2 u2 : List α)
    (h11 : List.Forall₂ (· ≤ ·) l1 u1) (h22 : List.Forall₂ (· ≤ ·) l2 u2)
    (hcheck : hyperrectangle_check_intersection l1 u1 l2 u2 = true) :
    List.Forall₂ (· ≤ ·) (List.zipWith max l1 l2) (List.zipWith min u1 u2) := by
  rw [hyperrectangle_check_intersection_true_iff] at hcheck
  obtain ⟨hc1, hc2⟩ := hcheck
  rw [forall_mem_zip_iff] at hc1 hc2
  have hlen1 : l1.length = u1.length := h11.length_eq
  have hlen2 : l2.length = u2.length := h22.length_eq
  rw [List.forall₂_iff_get]
  constructor
  · simp [hlen1, hlen2]
  · intro i hi1 hi2
    have hil1 : i < l1.length := by
      rw [List.length_zipWith] at hi1
      exact lt_of_lt_of_le hi1 (min_le_left _ _)
    have hil2 : i < l2.length := by
      rw [List.length_zipWith] at hi1
      exact lt_of_lt_of_le hi1 (min_le_right _ _)
    have hiu1 : i < u1.length := by omega
    have hiu2 : i < u2.length := by omega
    rw [List.get_eq_getElem, List.get_eq_getElem, List.getElem_zipWith, List.getElem_zipWith]
    refine max_le (le_min ?_ ?_) (le_min ?_ ?_)
    · have hg := h11.get hil1 hiu1
      simpa [List.get_eq_getElem] using hg
    · exact le_of_lt (by simpa [List.get_eq_getElem] using hc1 i hil1 hiu2)
    · exact le_of_lt (by simpa [List.get_eq_getElem] using hc2 i hiu1 hil2)
    · have hg := h22.get hil2 hiu2
      simpa [List.get_eq_getElem] using hg

/-- C5 counterexample.  The claim says that with `intersect_iteratively`
unset the bounds always become exactly `L` and `U` after `update`.  At a
one-dimensional region the program instead raises: with a `(1, 1)` covariance,
`covariance.squeeze()` (confidence_region.py line 92) produces a 0-d array
and `np.diag` of a 0-d array raises `ValueError`, before any bound is
assigned. -/
theorem c5_update_dim1_counterexample :
    RectangularConfidenceRegion.update Real.sqrt ⟨false, [(0 : ℝ)], [1]⟩ [1] [[1]] [1] =
      .error .valueError ∧
    (⟨false, [(0 : ℝ)], [1]⟩ : RectangularConfidenceRegion ℝ).intersect_iteratively =
      false := by
  constructor <;> rfl

/-- C5, amended.  After `RectangularConfidenceRegion.update(mean, covariance,
scale)` with a square covariance whose size is not one, letting
`L = mean - sqrt(diag(covariance)) * scale` and
`U = mean + sqrt(diag(covariance)) * scale`: with `intersect_iteratively`
set, if `[L, U]` overlaps the current box per
`hyperrectangle_check_intersection` the new bounds are the coordinatewise
max of lowers and min of uppers, and if it does not overlap the bounds
become exactly `L` and `U` (wholesale replacement); without
`intersect_iteratively` the bounds always become exactly `L` and `U`.  At a
`(1, 1)` covariance `update` instead raises `ValueError` from
`np.diag(covariance.squeeze())`, leaving the bounds unchanged. -/
theorem c5_update_branches (r : RectangularConfidenceRegion ℝ) (mean : List ℝ)
    (cov : List (List ℝ)) (scale : List ℝ)
    (hsq : (cov.all fun row => decide (row.length = cov.length)) = true)
    (hd1 : cov.length ≠ 1) :
    (r.intersect_iteratively = true →
      (hyperrectangle_check_intersection r.lower r.upper
          (List.zipWith (fun x y => x - y) mean
            (List.zipWith (· * ·) ((matrixDiag cov).map Real.sqrt) scale))
          (List.zipWith (fun x y => x + y) mean
            (List.zipWith (· * ·) ((matrixDiag cov).map Real.sqrt) scale)) = true →
        r.update Real.sqrt mean cov scale = .ok
          { r with
              lower := List.zipWith max r.lower
                (List.zipWith (fun x y => x - y) mean
                  (List.zipWith (· * ·) ((matrixDiag cov).map Real.sqrt) scale))
              upper := List.zipWith min r.upper
                (List.zipWith (fun x y => x + y) mean
                  (List.zipWith (· * ·) ((matrixDiag cov).map Real.sqrt) scale)) }) ∧
      (hyperrectangle_check_intersection r.lower r.upper
          (List.zipWith (fun x y => x - y) mean
            (List.zipWith (· * ·) ((matrixDiag cov).map Real.sqrt) scale))
          (List.zipWith (fun x y => x + y) mean
            (List.zipWith (· * ·) ((matrixDiag cov).map Real.sqrt) scale)) = false →
        r.update Real.sqrt mean cov scale = .ok
          { r with
              lower := List.zipWith (fun x y => x - y) mean
                (List.zipWith (· * ·) ((matrixDiag cov).map Real.sqrt) scale)
              upper := List.zipWith (fun x y => x + y) mean
                (List.zipWith (· * ·) ((matrixDiag cov).map Real.sqrt) scale) })) ∧
    (r.intersect_iteratively = false →
      r.update Real.sqrt mean cov scale = .ok
        { r with
            lower := List.zipWith (fun x y => x - y) mean
              (List.zipWith (· * ·) ((matrixDiag cov).map Real.sqrt) scale)
            upper := List.zipWith (fun x y => x + y) mean
              (List.zipWith (· * ·) ((matrixDiag cov).map Real.sqrt) scale) }) ∧
    (∀ (cov1 : List (List ℝ)),
      (cov1.all fun row => decide (row.length = cov1.length)) = true →
      cov1.length = 1 →
      r.update Real.sqrt mean cov1 scale = .error .valueError) := by
  refine ⟨fun hflag => ⟨fun hover => ?_, fun hover => ?_⟩, fun hflag => ?_,
    fun cov1 h1 h2 => ?_⟩
  · simp only [RectangularConfidenceRegion.update, hsq, if_true]
    rw [if_neg hd1]
    simp only [hflag, RectangularConfidenceRegion.intersect, hover, if_true]
  · simp only [RectangularConfidenceRegion.update, hsq, if_true]
    rw [if_neg hd1]
    simp only [hflag, RectangularConfidenceRegion.intersect, hover, Bool.false_eq_true,
      if_false, if_true]
  · simp only [RectangularConfidenceRegion.update, hsq, if_true]
    rw [if_neg hd1]
    simp only [hflag, Bool.false_eq_true, if_false]
  · simp only [RectangularConfidenceRegion.update, h1, if_true]
    rw [if_pos h2]

/-- C9.  The invariant `lower <= upper` (elementwise) holds for every
`RectangularConfidenceRegion` after construction — both the default
infinite-bounds case (either bound argument missing) and the explicit-bounds
case, which rejects violating inputs with an assertion — and is preserved by
every successful `update(mean, covariance, scale)` with nonnegative `scale`
and nonnegative covariance diagonal, in all three branches: non-iterative
replacement, iterative intersection when the boxes overlap, and wholesale
replacement when they do not.  An `update` that raises (non-square
covariance, or the `ValueError` from `np.diag(covariance.squeeze())` at a
`(1, 1)` covariance) assigns no bound, so the region keeps its old,
invariant-satisfying bounds; the preservation conjunct therefore quantifies
the updates that return a region. -/
theorem c9_bounds_invariant :
    (∀ (dim : ℕ) (flag : Bool) (lowerOpt upperOpt : Option (List ℝ))
        (r : RectangularConfidenceRegion ℝ),
      (lowerOpt = none ∨ upperOpt = none) →
      RectangularConfidenceRegion.make dim lowerOpt upperOpt flag = .ok r →
      List.Forall₂ (· ≤ ·) r.lower r.upper) ∧
    (∀ (dim : ℕ) (flag : Bool) (lower upper : List ℝ) (r : RectangularConfidenceRegion ℝ),
      RectangularConfidenceRegion.make dim (some lower) (some upper) flag = .ok r →
      List.Forall₂ (· ≤ ·) r.lower r.upper) ∧
    (∀ (r r2 : RectangularConfidenceRegion ℝ) (mean : List ℝ) (cov : List (List ℝ))
        (scale : List ℝ),
      List.Forall₂ (· ≤ ·) r.lower r.upper →
      (∀ x ∈ scale, 0 ≤ x) →
      (∀ x ∈ matrixDiag cov, 0 ≤ x) →
      r.update Real.sqrt mean cov scale = .ok r2 →
      List.Forall₂ (· ≤ ·) r2.lower r2.upper) := by
  refine ⟨?_, ?_, ?_⟩
  · intro dim flag lowerOpt upperOpt r hnone hmk
    have hdflt : List.Forall₂ (· ≤ ·) (List.replicate dim (-((10 : ℝ) ^ 12)))
        (List.replicate dim ((10 : ℝ) ^ 12)) :=
      forall₂_le_replicate (by norm_num) dim
    cases lowerOpt with
    | none =>
        simp only [RectangularConfidenceRegion.make] at hmk
        injection hmk with h
        subst h
        exact hdflt
    | some l =>
        cases upperOpt with
        | none =>
            simp only [RectangularConfidenceRegion.make] at hmk
            injection hmk with h
            subst h
            exact hdflt
        | some u => rcases hnone with h | h <;> exact Option.noConfusion h
  · intro dim flag lower upper r hmk
    simp only [RectangularConfidenceRegion.make] at hmk
    split at hmk
    · split at hmk
      · injection hmk with h
        subst h
        next hlen hall =>
          have hlen2 : lower.length = upper.length := by
            simp only [Bool.and_eq_true, decide_eq_true_eq] at hlen
            omega
          exact (zip_all_le_iff hlen2).mp hall
      · exact Except.noConfusion hmk
    · exact Except.noConfusion hmk
  · intro r r2 mean cov scale hinv hscale hdiag hupd
    have hq : ∀ y ∈ List.zipWith (· * ·) ((matrixDiag cov).map Real.sqrt) scale, 0 ≤ y :=
      zipWith_mul_nonneg _ scale
        (fun x hx => by
          rcases List.mem_map.mp hx with ⟨t, _, rfl⟩
          exact Real.sqrt_nonneg t)
        hscale
    have hLU : List.Forall₂ (· ≤ ·)
        (List.zipWith (fun x y => x - y) mean
          (List.zipWith (· * ·) ((matrixDiag cov).map Real.sqrt) scale))
        (List.zipWith (fun x y => x + y) mean
          (List.zipWith (· * ·) ((matrixDiag cov).map Real.sqrt) scale)) :=
      zipWith_sub_le_zipWith_add mean _ hq
    simp only [RectangularConfidenceRegion.update] at hupd
    split at hupd
    · split at hupd
      · exact Except.noConfusion hupd
      · cases hflag : r.intersect_iteratively with
        | true =>
            rw [hflag, if_pos rfl] at hupd
            injection hupd with h
            subst h
            simp only [RectangularConfidenceRegion.intersect]
            split
            · next hcheck => exact forall₂_le_intersect _ _ _ _ hinv hLU hcheck
            · exact hLU
        | false =>
            rw [hflag] at hupd
            simp only [Bool.false_eq_true, if_false] at hupd
            injection hupd with h
            subst h
            exact hLU
    · exact Except.noConfusion hupd

/-- Witness for `c5_update_branches` at a concrete input. -/
theorem c5_update_branches_witness :
    hyperrectangle_check_intersection [(0 : ℝ), 0] [2, 2]
      (List.zipWith (fun x y => x - y) [(1 : ℝ), 1]
        (List.zipWith (· * ·) ((matrixDiag [[(0 : ℝ), 0], [0, 0]]).map Real.sqrt) [1, 1]))
      (List.zipWith (fun x y => x + y) [(1 : ℝ), 1]
        (List.zipWith (· * ·) ((matrixDiag [[(0 : ℝ), 0], [0, 0]]).map Real.sqrt) [1, 1])) =
      true ∧
    RectangularConfidenceRegion.update Real.sqrt ⟨true, [(0 : ℝ), 0], [2, 2]⟩ [1, 1]
        [[0, 0], [0, 0]] [1, 1] =
      .ok ⟨true,
        List.zipWith max [(0 : ℝ), 0]
          (List.zipWith (fun x y => x - y) [(1 : ℝ), 1]
            (List.zipWith (· * ·) ((matrixDiag [[(0 : ℝ), 0], [0, 0]]).map Real.sqrt)
              [1, 1])),
        List.zipWith min [(2 : ℝ), 2]
          (List.zipWith (fun x y => x + y) [(1 : ℝ), 1]
            (List.zipWith (· * ·) ((matrixDiag [[(0 : ℝ), 0], [0, 0]]).map Real.sqrt)
              [1, 1]))⟩ := by
  have hstd : (matrixDiag [[(0 : ℝ), 0], [0, 0]]).map Real.sqrt = [0, 0] := by
    rw [show matrixDiag [[(0 : ℝ), 0], [0, 0]] = [0, 0] from rfl]
    simp [Real.sqrt_zero]
  have hcheck : hyperrectangle_check_intersection [(0 : ℝ), 0] [2, 2]
      (List.zipWith (fun x y => x - y) [(1 : ℝ), 1]
        (List.zipWith (· * ·) ((matrixDiag [[(0 : ℝ), 0], [0, 0]]).map Real.sqrt) [1, 1]))
      (List.zipWith (fun x y => x + y) [(1 : ℝ), 1]
        (List.zipWith (· * ·) ((matrixDiag [[(0 : ℝ), 0], [0, 0]]).map Real.sqrt) [1, 1])) =
      true := by
    have hL : List.zipWith (fun x y => x - y) [(1 : ℝ), 1]
        (List.zipWith (· * ·) ((matrixDiag [[(0 : ℝ), 0], [0, 0]]).map Real.sqrt) [1, 1]) =
        [1, 1] := by
      rw [hstd]
      norm_num
    have hU : List.zipWith (fun x y => x + y) [(1 : ℝ), 1]
        (List.zipWith (· * ·) ((matrixDiag [[(0 : ℝ), 0], [0, 0]]).map Real.sqrt) [1, 1]) =
        [1, 1] := by
      rw [hstd]
      norm_num
    rw [hL, hU, hyperrectangle_check_intersection_eq]
    norm_num
  exact ⟨hcheck,
    ((c5_update_branches ⟨true, [(0 : ℝ), 0], [2, 2]⟩ [1, 1] [[0, 0], [0, 0]] [1, 1] rfl
        (by decide)).1 rfl).1 hcheck⟩

/-- Witness for `c9_bounds_invariant` (the update-preservation conjunct) at a
concrete input. -/
theorem c9_bounds_invariant_witness :
    List.Forall₂ (· ≤ ·)
      (List.zipWith (fun x y => x - y) [(0 : ℝ), 0]
        (List.zipWith (· * ·) ((matrixDiag [[(0 : ℝ), 0], [0, 0]]).map Real.sqrt) [0, 0]))
      (List.zipWith (fun x y => x + y) [(0 : ℝ), 0]
        (List.zipWith (· * ·) ((matrixDiag [[(0 : ℝ), 0], [0, 0]]).map Real.sqrt)
          [0, 0])) :=
  c9_bounds_invariant.2.2 ⟨false, [0, 0], [1, 1]⟩ _ [0, 0] [[0, 0], [0, 0]] [0, 0]
    (List.Forall₂.cons (by norm_num) (List.Forall₂.cons (by norm_num) List.Forall₂.nil))
    (fun x hx => by
      simp at hx
      exact hx.ge)
    (fun x hx => by
      rw [show matrixDiag [[(0 : ℝ), 0], [0, 0]] = [0, 0] from rfl] at hx
      simp at hx
      exact hx.ge)
    rfl
